import Mathlib

/-!
# Verification of the dependency-usage analyzer

Shallow embedding of the analyzer core of the `yhw` repository:
the dependency record model (`src/manifest/cargo.rs`), the usage metrics
and importance scorer (`src/analyzer/metrics.rs`), the source usage
scanner (`src/analyzer/rust_analyzer.rs`) and the dependency relationship
graph (`src/analyzer/dependency_graph.rs`).

Modelling conventions:
* Rust `f64` arithmetic is modelled by exact rational arithmetic (`ℚ`);
  every numeric literal of the source is transcribed exactly.
* Rust `HashMap` values threaded by the code are modelled by association
  lists whose `insert` removes any older binding of the key, so `lookup`
  sees exactly the map the `HashMap` holds; iteration order of a map is
  the list order (the `HashMap` order is arbitrary, no theorem below
  depends on it).
* `HashMap<UsageType, usize>` count maps (built only by
  `count_usage_types`, which never stores a zero) are modelled by total
  functions `UsageType → ℕ`; the map's `len()` is the number of kinds
  with a non-zero count.
* File-system reads and `syn::parse_file` are external effects: a source
  file is modelled by its path together with `content : Option String`
  (`none` = the read fails) and a parse oracle
  `String → Option (List VisitEvent)` standing for `syn::parse_file`
  (`none` = parse error); a parsed file is abstracted to the stream of
  visitor events (`visit_item_use` / `visit_macro` / `visit_path`
  callbacks) that `syn`'s traversal fires, which is exactly the interface
  the visitor implements.
-/

/-- `UsageType` from `src/analyzer/mod.rs`. -/
inductive UsageType where
  | Import
  | Function
  | Type
  | Trait
  | Macro
  | Other
deriving DecidableEq, Repr

/-- All six usage kinds, in declaration order. -/
def allUsageTypes : List UsageType :=
  [.Import, .Function, .Type, .Trait, .Macro, .Other]

instance : Fintype UsageType where
  elems := ⟨[UsageType.Import, .Function, .Type, .Trait, .Macro, .Other], by decide⟩
  complete := by intro x; cases x <;> decide

/-- `DependencyType` from `src/manifest/cargo.rs`. -/
inductive DependencyType where
  | Normal
  | Development
  | Build
deriving DecidableEq, Repr

/-- `CargoDependency` from `src/manifest/cargo.rs`. -/
structure CargoDependency where
  name : String
  version : Option String
  features : List String
  optional : Bool
  dependency_type : DependencyType
  source : String
deriving DecidableEq, Repr

/-- `DependencyUsage` from `src/analyzer/mod.rs` (a usage site). -/
structure DependencyUsage where
  file : String
  line : Nat
  imported_item : String
  usage_type : UsageType
deriving DecidableEq, Repr

/-- The `usage_locations` map of `DependencyUsageData`
(`src/analyzer/mod.rs`): dependency name → ordered usage sites. -/
abbrev UsageData := List (String × List DependencyUsage)

/-- `HashMap::insert` on an association list: the new binding replaces any
older binding of the same key. -/
def insertA {α : Type} (k : String) (v : α) (m : List (String × α)) :
    List (String × α) :=
  (k, v) :: m.filter (fun p => p.1 ≠ k)

/-- `if let Some(v) = map.get_mut(&k) { v.push(u) }`: append `u` to the
entry of `k` when the key is present, otherwise leave the map unchanged. -/
def pushUsage (m : UsageData) (k : String) (u : DependencyUsage) : UsageData :=
  if (m.lookup k).isSome then
    m.map (fun p => if p.1 = k then (p.1, p.2 ++ [u]) else p)
  else m

/-! ## Usage Metrics & Importance Scorer (`src/analyzer/metrics.rs`) -/

/-- `count_usage_types`: tally of `usage_type` across the usage sites,
as the total count function the resulting `HashMap` represents. -/
def count_usage_types (usages : List DependencyUsage) : UsageType → Nat :=
  fun t => (usages.filter (fun u => u.usage_type = t)).length

/-- `HashMap::len()` of a count map built by `count_usage_types`:
the number of kinds holding a non-zero count. -/
def mapLen (counts : UsageType → Nat) : Nat :=
  (allUsageTypes.filter (fun t => counts t ≠ 0)).length

/-- Rust `str::contains`: substring test. -/
def containsStr (s sub : String) : Bool :=
  decide (sub.toList <:+: s.toList)

/-- `calculate_feature_usage` from `src/analyzer/metrics.rs`. -/
def calculate_feature_usage (dep : CargoDependency)
    (usages : List DependencyUsage) : List (String × Bool) :=
  let feature_usage := dep.features.foldl
    (fun m feature => insertA feature false m) []
  if dep.features.isEmpty || usages.isEmpty then
    feature_usage
  else
    usages.foldl (fun m usage =>
      dep.features.foldl (fun m feature =>
        if containsStr usage.imported_item feature then
          insertA feature true m
        else m) m) feature_usage

/-- `determine_if_partially_used` from `src/analyzer/metrics.rs`. -/
def determine_if_partially_used (dep : CargoDependency)
    (feature_usage : List (String × Bool)) : Bool :=
  if dep.features.isEmpty then false
  else feature_usage.any (fun p => !p.2)

/-- `calculate_usage_depth` from `src/analyzer/metrics.rs`:
sequentially accumulated depth, capped at `1.0`. -/
def calculate_usage_depth (usage_types : UsageType → Nat) : ℚ :=
  let depth : ℚ := 0
  let import_count := usage_types .Import
  let depth := if import_count > 0 then depth + 1/10 else depth
  let function_count := usage_types .Function
  let depth := if function_count > 0 then
      depth + 3/10 * (min (function_count : ℚ) 10) / 10 else depth
  let type_count := usage_types .Type
  let depth := if type_count > 0 then
      depth + 3/10 * (min (type_count : ℚ) 10) / 10 else depth
  let trait_count := usage_types .Trait
  let depth := if trait_count > 0 then
      depth + 3/10 * (min (trait_count : ℚ) 5) / 5 else depth
  let macro_count := usage_types .Macro
  let depth := if macro_count > 0 then
      depth + 2/10 * (min (macro_count : ℚ) 10) / 10 else depth
  min depth 1

/-- `calculate_importance_score` from `src/analyzer/metrics.rs`. -/
def calculate_importance_score (dep : CargoDependency)
    (usages : List DependencyUsage) (usage_count : Nat)
    (usage_types : UsageType → Nat) : ℚ :=
  if usages.isEmpty then 0
  else
    let base_score := min (usage_count : ℚ) 20 / 20
    let variety_factor := (mapLen usage_types : ℚ) / 5
    let usage_depth := calculate_usage_depth usage_types
    let type_factor : ℚ :=
      match dep.dependency_type with
      | .Normal => 1
      | .Development => 5/10
      | .Build => 7/10
    let optional_factor : ℚ := if dep.optional then 7/10 else 1
    let score := base_score * (1 + variety_factor) * (1 + usage_depth) *
      type_factor * optional_factor
    min score 1

/-- `DependencyMetrics` from `src/analyzer/mod.rs`, with each `HashMap`
as an association list (count maps as their total count functions). -/
structure DependencyMetrics where
  importance_scores : List (String × ℚ) := []
  is_used : List (String × Bool) := []
  usage_count : List (String × Nat) := []
  usage_types : List (String × (UsageType → Nat)) := []
  feature_usage : List (String × List (String × Bool)) := []
  is_partially_used : List (String × Bool) := []
  removable_dependencies : List String := []

/-- The condition under which one `(dep_name, is_used)` entry is pushed to
`removable` by the loop of `find_removable_dependencies`. -/
def is_removable_entry (metrics : DependencyMetrics) (p : String × Bool) :
    Bool :=
  if !p.2 then true
  else
    let score := (metrics.importance_scores.lookup p.1).getD 1
    if score < 1/10 then true
    else
      match metrics.is_partially_used.lookup p.1 with
      | some true => decide (score < 3/10)
      | _ => false

/-- `find_removable_dependencies` from `src/analyzer/metrics.rs`:
iterate the `is_used` entries, keeping the names passing the
removability test. -/
def find_removable_dependencies (metrics : DependencyMetrics) :
    List String :=
  ((metrics.is_used.filter (is_removable_entry metrics)).map (fun p => p.1))

/-- The loop body of `calculate_metrics`: compute and store all
per-dependency metrics for `dep`. -/
def metricsStep (usage_data : UsageData) (m : DependencyMetrics)
    (dep : CargoDependency) : DependencyMetrics :=
  let usages := (usage_data.lookup dep.name).getD []
  let is_used := !usages.isEmpty
  let usage_count := (usages.map (fun u => u.file)).dedup.length
  let usage_types := count_usage_types usages
  let feature_usage := calculate_feature_usage dep usages
  let importance_score :=
    calculate_importance_score dep usages usage_count usage_types
  let is_partially_used := determine_if_partially_used dep feature_usage
  { m with
    is_used := insertA dep.name is_used m.is_used
    usage_count := insertA dep.name usage_count m.usage_count
    importance_scores := insertA dep.name importance_score m.importance_scores
    usage_types := insertA dep.name usage_types m.usage_types
    feature_usage := insertA dep.name feature_usage m.feature_usage
    is_partially_used := insertA dep.name is_partially_used m.is_partially_used }

/-- `calculate_metrics` from `src/analyzer/metrics.rs`. -/
def calculate_metrics (dependencies : List CargoDependency)
    (usage_data : UsageData) : DependencyMetrics :=
  let metrics := dependencies.foldl (metricsStep usage_data) {}
  { metrics with
    removable_dependencies := find_removable_dependencies metrics }

/-! ### Spec-side scoring definitions

Transcribed from the words of the specification (§4.2), to be compared
with the source-side definitions above. The spec names the class
`Runtime`, which the record model declares as `Normal`. -/

/-- Spec: `base = min(file_count, 20) / 20`. -/
def spec_base (file_count : Nat) : ℚ := min (file_count : ℚ) 20 / 20

/-- Spec: `variety = distinct_usage_kinds_present / 5`. -/
def spec_variety (counts : UsageType → Nat) : ℚ :=
  ((Finset.univ.filter (fun t => 0 < counts t)).card : ℚ) / 5

/-- Spec: depth accumulated as the sum of the five per-kind capped terms,
itself capped at `1.0`. -/
def spec_depth (counts : UsageType → Nat) : ℚ :=
  min 1
    ((if 0 < counts .Import then (1 : ℚ)/10 else 0) +
     (if 0 < counts .Function then 3/10 * min (counts .Function : ℚ) 10 / 10 else 0) +
     (if 0 < counts .Type then 3/10 * min (counts .Type : ℚ) 10 / 10 else 0) +
     (if 0 < counts .Trait then 3/10 * min (counts .Trait : ℚ) 5 / 5 else 0) +
     (if 0 < counts .Macro then 2/10 * min (counts .Macro : ℚ) 10 / 10 else 0))

/-- Spec: `class_factor`: Runtime = 1.0, BuildTime = 0.7,
Development = 0.5. -/
def spec_class_factor : DependencyType → ℚ
  | .Normal => 1
  | .Build => 7/10
  | .Development => 5/10

/-- Spec: `optional_factor`: 0.7 if the record is optional, else 1.0. -/
def spec_optional_factor (optional : Bool) : ℚ :=
  if optional then 7/10 else 1

/-- Spec: `importance_score = min(1.0, base * (1 + variety) * (1 + depth)
* class_factor * optional_factor)`. -/
def spec_importance_score (dep : CargoDependency) (file_count : Nat)
    (counts : UsageType → Nat) : ℚ :=
  min 1 (spec_base file_count * (1 + spec_variety counts) *
    (1 + spec_depth counts) * spec_class_factor dep.dependency_type *
    spec_optional_factor dep.optional)

/-! ## Source Usage Scanner (`src/analyzer/rust_analyzer.rs`) -/

/-- One `syn` path segment, as far as the scanner inspects it:
its identifier and whether `arguments.is_empty()` holds. -/
structure PathSeg where
  ident : String
  arguments_is_empty : Bool
deriving DecidableEq, Repr

/-- `is_lowercase_first`: does the string start with a lowercase letter?
(Rust checks Unicode lowercase; the model checks ASCII, which agrees on
ASCII identifiers.) -/
def is_lowercase_first (s : String) : Bool :=
  match s.toList.head? with
  | some c => c.isLower
  | none => false

/-- `is_uppercase_first`: does the string start with an uppercase letter? -/
def is_uppercase_first (s : String) : Bool :=
  match s.toList.head? with
  | some c => c.isUpper
  | none => false

/-- `path_to_string`: join the segment identifiers with `::`. -/
def path_to_string (segments : List PathSeg) : String :=
  String.intercalate "::" (segments.map (fun s => s.ident))

/-- `determine_usage_type` from `src/analyzer/rust_analyzer.rs`:
the sequence of early-returning `if`s over the last segment. -/
def determine_usage_type (segments : List PathSeg) : UsageType :=
  match segments.getLast? with
  | some segment =>
    let name := segment.ident
    if segment.arguments_is_empty && is_lowercase_first name then
      .Function
    else if is_uppercase_first name then
      .Type
    else if is_uppercase_first name && segments.length > 1 then
      .Trait
    else
      .Other
  | none => .Other

/-- The characters before the first occurrence of `sep` (the whole list
when `sep` never occurs). -/
def headSegAux (sep : List Char) : List Char → List Char
  | [] => []
  | c :: rest => if sep <+: (c :: rest) then [] else c :: headSegAux sep rest

/-- `full_path.split("::").next().unwrap_or("")`: leading path segment. -/
def headSeg (s : String) : String :=
  String.mk (headSegAux "::".toList s.toList)

mutual
/-- `syn::UseTree`, mutually with the item list of a `UseGroup`. -/
inductive UseTree where
  | path (ident : String) (sub : UseTree)
  | name (ident : String)
  | rename (ident rn : String)
  | glob
  | group (items : UseTreeForest)
inductive UseTreeForest where
  | nil
  | cons (t : UseTree) (ts : UseTreeForest)
end

/-- The visitor's per-file state: the `current_imports` alias table and
the shared `usage_data` map. -/
structure VisitorState where
  current_imports : List (String × String)
  usage_data : UsageData

mutual
/-- `process_use_tree` from `src/analyzer/rust_analyzer.rs`, mutually
with the loop over a group's items. -/
def process_use_tree (deps : List CargoDependency) (file : String) :
    UseTree → String → Nat → VisitorState → VisitorState
  | .path ident sub, pre, line, st =>
    let new_prefix := if pre.isEmpty then ident else pre ++ "::" ++ ident
    let st :=
      { st with usage_data := deps.foldl (fun m dep =>
          if ident = dep.name ∧ pre.isEmpty then
            pushUsage m dep.name
              ⟨file, line, ident ++ "::<rest>", .Import⟩
          else m) st.usage_data }
    process_use_tree deps file sub new_prefix line st
  | .name ident, pre, line, st =>
    let full_path := if pre.isEmpty then ident else pre ++ "::" ++ ident
    let st := { st with
      current_imports := insertA ident full_path st.current_imports }
    let crate_name := headSeg pre
    { st with usage_data := deps.foldl (fun m dep =>
        if crate_name = dep.name then
          pushUsage m dep.name ⟨file, line, full_path, .Import⟩
        else m) st.usage_data }
  | .rename ident rn, pre, line, st =>
    let full_path := if pre.isEmpty then ident else pre ++ "::" ++ ident
    let st := { st with
      current_imports := insertA rn full_path st.current_imports }
    let crate_name := headSeg pre
    { st with usage_data := deps.foldl (fun m dep =>
        if crate_name = dep.name then
          pushUsage m dep.name
            ⟨file, line, full_path ++ " as " ++ rn, .Import⟩
        else m) st.usage_data }
  | .glob, pre, line, st =>
    let crate_name := headSeg pre
    { st with usage_data := deps.foldl (fun m dep =>
        if crate_name = dep.name then
          pushUsage m dep.name ⟨file, line, pre ++ "::*", .Import⟩
        else m) st.usage_data }
  | .group items, pre, line, st =>
    process_use_tree_items deps file items pre line st
def process_use_tree_items (deps : List CargoDependency) (file : String) :
    UseTreeForest → String → Nat → VisitorState → VisitorState
  | .nil, _, _, st => st
  | .cons t ts, pre, line, st =>
    process_use_tree_items deps file ts pre line
      (process_use_tree deps file t pre line st)
end

/-- `visit_item_use`: process the use tree, with line number `0` ("for
simplicity, we're using line 0 as we can't easily get the line number"). -/
def visit_item_use (deps : List CargoDependency) (file : String)
    (tree : UseTree) (st : VisitorState) : VisitorState :=
  process_use_tree deps file tree "" 0 st

/-- `visit_macro` from `src/analyzer/rust_analyzer.rs`: attribute the
invoked macro to a dependency through the `current_imports` table. -/
def visitMacro (deps : List CargoDependency) (file : String)
    (segIdents : List String) (st : VisitorState) : VisitorState :=
  match segIdents.head? with
  | none => st
  | some macroName =>
    { st with usage_data := st.current_imports.foldl (fun m p =>
        if macroName = p.1 then
          let crate_name := headSeg p.2
          deps.foldl (fun m dep =>
            if crate_name = dep.name then
              pushUsage m dep.name ⟨file, 0, macroName ++ "!", .Macro⟩
            else m) m
        else m) st.usage_data }

/-- `visit_path` from `src/analyzer/rust_analyzer.rs`: record direct
dependency paths and paths resolving through `current_imports`,
with line number `0`. -/
def visit_path (deps : List CargoDependency) (file : String)
    (segments : List PathSeg) (st : VisitorState) : VisitorState :=
  match segments.head? with
  | none => st
  | some segment =>
    let name := segment.ident
    let m := deps.foldl (fun m dep =>
      if name = dep.name then
        pushUsage m dep.name
          ⟨file, 0, path_to_string segments, determine_usage_type segments⟩
      else m) st.usage_data
    let m :=
      match st.current_imports.lookup name with
      | some full_path =>
        let crate_name := headSeg full_path
        deps.foldl (fun m dep =>
          if crate_name = dep.name then
            pushUsage m dep.name
              ⟨file, 0,
                path_to_string segments ++ " (from " ++ full_path ++ ")",
                determine_usage_type segments⟩
          else m) m
      | none => m
    { st with usage_data := m }

/-- One callback of `syn`'s traversal of a parsed file, as the visitor
sees it. -/
inductive VisitEvent where
  | itemUse (tree : UseTree)
  | macroCall (segIdents : List String)
  | pathExpr (segments : List PathSeg)

/-- The visitor run over a parsed file: a fresh `current_imports` table,
the events in traversal order, the updated usage map out. -/
def visitFile (deps : List CargoDependency) (file : String)
    (events : List VisitEvent) (m : UsageData) : UsageData :=
  (events.foldl (fun (st : VisitorState) e =>
    match e with
    | .itemUse tree => visit_item_use deps file tree st
    | .macroCall segIdents => visitMacro deps file segIdents st
    | .pathExpr segments => visit_path deps file segments st)
    ⟨[], m⟩).usage_data

/-- Rust `str::trim_end_matches(';')`: drop every trailing `;`. -/
def trimEndSemis (s : String) : String :=
  String.mk ((s.toList.reverse.dropWhile (fun c => c = ';')).reverse)

/-- Rust `str::trim_start_matches(pre)` on character lists: repeatedly
strip the prefix while it matches. -/
def dropPrefixAll (pre : List Char) (s : List Char) : List Char :=
  if h : pre ≠ [] ∧ pre <+: s then
    dropPrefixAll pre (s.drop pre.length)
  else s
termination_by s.length
decreasing_by
  have hle := h.2.length_le
  have hpos : 0 < pre.length := List.length_pos.mpr h.1
  simp only [List.length_drop]
  omega

/-- Rust `str::trim_start_matches` on strings. -/
def trimStartMatches (s pre : String) : String :=
  String.mk (dropPrefixAll pre.toList s.toList)

/-- Rust `str::split_whitespace().next().unwrap_or("")`. -/
def firstWhitespaceWord (s : String) : String :=
  ((s.split Char.isWhitespace).filter (fun w => !w.isEmpty)).headD ""

/-- `process_use_statement` from `src/analyzer/rust_analyzer.rs`
(line-oriented fallback, `use` statements). -/
def process_use_statement (line : String) (line_number : Nat)
    (file : String) (deps : List CargoDependency) (m : UsageData) :
    UsageData :=
  let line := trimStartMatches line.trim "use "
  let first_part := headSeg line
  deps.foldl (fun m dep =>
    if first_part = dep.name then
      pushUsage m dep.name
        ⟨file, line_number, trimEndSemis line, .Import⟩
    else m) m

/-- `process_extern_crate` from `src/analyzer/rust_analyzer.rs`
(line-oriented fallback, `extern crate` statements). -/
def process_extern_crate (line : String) (line_number : Nat)
    (file : String) (deps : List CargoDependency) (m : UsageData) :
    UsageData :=
  let line := trimStartMatches line.trim "extern crate "
  let crate_name := trimEndSemis (firstWhitespaceWord line)
  deps.foldl (fun m dep =>
    if crate_name = dep.name then
      pushUsage m dep.name ⟨file, line_number, crate_name, .Import⟩
    else m) m

/-- Rust `str::lines`, as splitting on newline. -/
def linesOf (s : String) : List String := s.splitOn "\n"

/-- `analyze_file_simple` from `src/analyzer/rust_analyzer.rs`: the
text-based fallback pass, numbering lines `line_number + 1` (1-based). -/
def analyze_file_simple (file_content : String) (file : String)
    (deps : List CargoDependency) (m : UsageData) : UsageData :=
  (linesOf file_content).enum.foldl (fun m p =>
    let line_number := p.1
    let line := p.2
    let m := if line.trim.startsWith "use " then
        process_use_statement line (line_number + 1) file deps m
      else m
    if line.trim.startsWith "extern crate " then
      process_extern_crate line (line_number + 1) file deps m
    else m) m

/-- A source file found by the walk: its path, and its content when the
read succeeds (`none` models an unreadable file). -/
structure SrcFile where
  path : String
  content : Option String

/-- `analyze_file` from `src/analyzer/rust_analyzer.rs`: a failed read
is an error (`fs::read_to_string(...)​.with_context(...)?`); a failed
parse (oracle `pf` returns `none`) logs a warning and falls back to
`analyze_file_simple`; a successful parse runs the visitor. -/
def analyze_file (pf : String → Option (List VisitEvent)) (f : SrcFile)
    (deps : List CargoDependency) (m : UsageData) :
    Except String UsageData :=
  match f.content with
  | none => .error ("Failed to read file: " ++ f.path)
  | some file_content =>
    match pf file_content with
    | some events => .ok (visitFile deps f.path events m)
    | none => .ok (analyze_file_simple file_content f.path deps m)

/-- The file loop of `RustAnalyzer::analyze`: run `analyze_file` on each
file in turn, the `?` propagating any per-file error. -/
def analyze_files_loop (pf : String → Option (List VisitEvent))
    (dependencies : List CargoDependency) :
    List SrcFile → UsageData → Except String UsageData
  | [], m => .ok m
  | f :: fs, m =>
    match analyze_file pf f dependencies m with
    | .ok m2 => analyze_files_loop pf dependencies fs m2
    | .error e => .error e

/-- `RustAnalyzer::analyze` from `src/analyzer/rust_analyzer.rs`:
initialize an empty usage sequence per declared dependency, then run
`analyze_file` over the enumerated source files. (`files` is the walk's
output; the directory walk and exclusion filter are external I/O.) -/
def RustAnalyzer.analyze (pf : String → Option (List VisitEvent))
    (files : List SrcFile) (dependencies : List CargoDependency) :
    Except String UsageData :=
  let init : UsageData :=
    dependencies.foldl (fun m dep => insertA dep.name [] m) []
  analyze_files_loop pf dependencies files init

/-! ## Dependency Relationship Graph (`src/analyzer/dependency_graph.rs`)

`petgraph::graph::DiGraph` is modelled by the list of node weights (the
dependency names, indexed by insertion order) and the list of directed
edges between node indices. `petgraph::algo::tarjan_scc` is an external
library function; it is modelled from its documented behavior — a list
holding every strongly connected component of the graph exactly once —
by the reachability-based decomposition `sccDecomp` below, which is
proved against the mathematical definition of strong connectivity. -/

/-- `DependencyGraph` from `src/analyzer/dependency_graph.rs`. -/
structure DependencyGraph where
  nodes : List String
  edges : List (Nat × Nat)
deriving DecidableEq, Repr

/-- The number of nodes of the graph. -/
def DependencyGraph.n (g : DependencyGraph) : Nat := g.nodes.length

/-- One directed edge step. -/
def Step (g : DependencyGraph) (u v : Nat) : Prop := (u, v) ∈ g.edges

instance (g : DependencyGraph) (u v : Nat) : Decidable (Step g u v) :=
  inferInstanceAs (Decidable ((u, v) ∈ g.edges))

/-- Directed reachability: the reflexive-transitive closure of `Step`. -/
def Reach (g : DependencyGraph) : Nat → Nat → Prop :=
  Relation.ReflTransGen (Step g)

/-- One expansion round: add every in-range node reachable in one step
from the current set. -/
def succs (g : DependencyGraph) (S : Finset Nat) : Finset Nat :=
  S ∪ (Finset.range g.n).filter (fun v => ∃ u ∈ S, Step g u v)

/-- The set of nodes reachable from `s` along at most `k` expansion
rounds. -/
def reachSet (g : DependencyGraph) (s : Nat) : Nat → Finset Nat
  | 0 => {s}
  | k + 1 => succs g (reachSet g s k)

/-- Executable reachability test: expand `g.n` rounds. -/
def reachableB (g : DependencyGraph) (u v : Nat) : Bool :=
  decide (v ∈ reachSet g u g.n)

/-- The strongly connected component of node `v`, listed in index
order: the in-range nodes mutually reachable with `v`. -/
def sccOf (g : DependencyGraph) (v : Nat) : List Nat :=
  (List.range g.n).filter (fun u => reachableB g v u && reachableB g u v)

/-- Modelled from the documented behavior of `petgraph::algo::tarjan_scc`
(code of an external crate, not of this repository): the list of the
graph's strongly connected components, each appearing exactly once. -/
def sccDecomp (g : DependencyGraph) : List (List Nat) :=
  ((List.range g.n).map (sccOf g)).dedup

/-- `find_circular_dependencies` from `src/analyzer/dependency_graph.rs`,
before converting node indices to names: keep the components with more
than one node. -/
def findCircularIndices (g : DependencyGraph) : List (List Nat) :=
  (sccDecomp g).filter (fun scc => scc.length > 1)

/-- `find_circular_dependencies`: filter the decomposition for components
with more than one node and convert node indices back to names. -/
def find_circular_dependencies (g : DependencyGraph) :
    List (List String) :=
  (findCircularIndices g).map (fun scc =>
    scc.map (fun idx => (g.nodes.get? idx).getD ""))

/-- `DependencyGraph::new`: one node per dependency, no edges ("for now,
we have a simple graph with just nodes"). -/
def DependencyGraph.new (dependencies : List CargoDependency) :
    DependencyGraph :=
  { nodes := dependencies.map (fun dep => dep.name), edges := [] }

/-- A lock file's resolved dependency-to-dependency relationships, as
name pairs. -/
abbrev LockData := List (String × String)

/-- `DependencyGraph::from_cargo_lock`: builds `Self::new(dependencies)`
and returns it; the body never reads the lock data ("for now, we'll
simulate by adding some placeholder relationships" — none are added). -/
def DependencyGraph.from_cargo_lock (_lock : LockData)
    (dependencies : List CargoDependency) : DependencyGraph :=
  DependencyGraph.new dependencies

/-- `generate_dependency_graph` from `src/analyzer/mod.rs`: use
`from_cargo_lock` when a `Cargo.lock` is present, else `new`. -/
def generate_dependency_graph (lock : Option LockData)
    (dependencies : List CargoDependency) : DependencyGraph :=
  match lock with
  | some lockData => DependencyGraph.from_cargo_lock lockData dependencies
  | none => DependencyGraph.new dependencies

/-! ## Shared concrete records for witnesses and counterexamples -/

/-- A minimal runtime dependency named `a`. -/
def depA : CargoDependency := ⟨"a", none, [], false, .Normal, "Cargo.toml"⟩

/-- A minimal runtime dependency named `b`. -/
def depB : CargoDependency := ⟨"b", none, [], false, .Normal, "Cargo.toml"⟩

/-- A minimal runtime dependency named `serde`. -/
def depSerde : CargoDependency :=
  ⟨"serde", some "1.0", [], false, .Normal, "Cargo.toml"⟩

/-- A minimal runtime dependency named `serde_json`. -/
def depSerdeJson : CargoDependency :=
  ⟨"serde_json", some "1.0", [], false, .Normal, "Cargo.toml"⟩

/-! ## Association-list lemmas -/

/-- Filtering out another key leaves a lookup unchanged. -/
theorem lookup_filter_ne {α : Type} (m : List (String × α)) (k k' : String)
    (h : k ≠ k') :
    (m.filter (fun p => p.1 ≠ k')).lookup k = m.lookup k := by
  induction m with
  | nil => rfl
  | cons p t ih =>
    by_cases hp : p.1 = k'
    · have h1 : (p :: t).filter (fun q => q.1 ≠ k') =
          t.filter (fun q => q.1 ≠ k') := by
        simp [List.filter_cons, hp]
      have hk : (k == p.1) = false := by
        rw [hp]; exact beq_eq_false_iff_ne.mpr h
      rw [h1, ih]
      simp [List.lookup, hk]
    · have h1 : (p :: t).filter (fun q => q.1 ≠ k') =
          p :: t.filter (fun q => q.1 ≠ k') := by
        simp [List.filter_cons, hp]
      rw [h1]
      simp only [List.lookup]
      cases k == p.1
      · simpa using ih
      · rfl

/-- `lookup` after a `HashMap` insert. -/
theorem lookup_insertA {α : Type} (m : List (String × α)) (k' k : String)
    (v : α) :
    (insertA k' v m).lookup k = if k = k' then some v else m.lookup k := by
  unfold insertA
  by_cases h : k = k'
  · simp [List.lookup, h]
  · have hk : (k == k') = false := by simpa using h
    simp only [List.lookup, hk, if_neg h]
    exact lookup_filter_ne m k k' h

/-! ## C3: classification of uppercase multi-segment paths -/

/-- C3: the claim fails on the code: for the two-segment path
`serde::Serialize`, whose final segment starts with an uppercase letter,
`determine_usage_type` returns `Type`, not `Trait` — the
`is_uppercase_first(name) && path.segments.len() > 1` branch of the
source is unreachable because the preceding `is_uppercase_first(name)`
check already returned `Type`. -/
theorem determine_usage_type_trait_unreachable :
    determine_usage_type [⟨"serde", true⟩, ⟨"Serialize", true⟩] =
        UsageType.Type ∧
    determine_usage_type [⟨"serde", true⟩, ⟨"Serialize", true⟩] ≠
        UsageType.Trait ∧
    is_uppercase_first "Serialize" = true ∧
    ([⟨"serde", true⟩, ⟨"Serialize", true⟩] : List PathSeg).length > 1 := by
  refine ⟨rfl, by decide, rfl, by decide⟩

/-! ## C5: the graph never receives lock-file edges -/

/-- C5 counterexample: `from_cargo_lock`, given lock data resolving a
relationship `a → b` over declared dependencies `a` and `b`, returns a
graph with an empty edge set: the lock data seeds nothing. -/
theorem from_cargo_lock_ignores_lock :
    (DependencyGraph.from_cargo_lock [("a", "b")] [depA, depB]).edges = []
    ∧ ([("a", "b")] : LockData) ≠ [] := by
  exact ⟨rfl, by simp⟩

/-- C5 (amended): with or without a lock file, the graph built by
`generate_dependency_graph` contains exactly the declared dependency
names as nodes and zero edges; `from_cargo_lock` ignores the lock data. -/
theorem generate_dependency_graph_node_only (lock : Option LockData)
    (dependencies : List CargoDependency) :
    (generate_dependency_graph lock dependencies).nodes =
        dependencies.map (fun dep => dep.name) ∧
    (generate_dependency_graph lock dependencies).edges = [] := by
  cases lock <;>
    simp [generate_dependency_graph, DependencyGraph.from_cargo_lock,
      DependencyGraph.new]

/-! ## C4: membership in the removable set -/

/-- The removability test of one `is_used` entry, unfolded to the
disjunction the spec states. -/
theorem is_removable_entry_iff (metrics : DependencyMetrics) (d : String)
    (b : Bool) :
    is_removable_entry metrics (d, b) = true ↔
      (b = false ∨
        (metrics.importance_scores.lookup d).getD 1 < 1/10 ∨
        (metrics.is_partially_used.lookup d = some true ∧
          (metrics.importance_scores.lookup d).getD 1 < 3/10)) := by
  unfold is_removable_entry
  cases b with
  | false => simp
  | true =>
    simp only [Bool.not_true, Bool.false_eq_true, if_false, false_or]
    by_cases h1 : (metrics.importance_scores.lookup d).getD 1 < 1/10
    · simp only [if_pos h1]
      exact iff_of_true trivial (Or.inr (Or.inl h1))
    · have h1' : ¬(metrics.importance_scores.lookup d).getD 1 < 10⁻¹ := by
        rw [← one_div]; exact h1
      simp only [if_neg h1]
      cases h2 : metrics.is_partially_used.lookup d with
      | none => simp [h1']
      | some b' => cases b' <;> simp [h1']

/-- C4: a dependency name is in the removable set iff its `is_used`
entry is `false`, or its importance score (default `1.0` when absent)
is `< 0.1`, or it is partially used and its score is `< 0.3`. -/
theorem find_removable_dependencies_mem_iff
    (metrics : DependencyMetrics) (d : String) :
    d ∈ find_removable_dependencies metrics ↔
      ∃ b, (d, b) ∈ metrics.is_used ∧
        (b = false ∨
          (metrics.importance_scores.lookup d).getD 1 < 1/10 ∨
          (metrics.is_partially_used.lookup d = some true ∧
            (metrics.importance_scores.lookup d).getD 1 < 3/10)) := by
  unfold find_removable_dependencies
  simp only [List.mem_map, List.mem_filter]
  constructor
  · rintro ⟨⟨d', b⟩, ⟨hmem, hcond⟩, rfl⟩
    exact ⟨b, hmem, (is_removable_entry_iff metrics d' b).mp hcond⟩
  · rintro ⟨b, hmem, hcond⟩
    exact ⟨(d, b), ⟨hmem, (is_removable_entry_iff metrics d b).mpr hcond⟩,
      rfl⟩

/-! ## C7: an empty usage sequence yields score `0.0` and `is_used = false` -/

/-- Processing the dependency list keeps (or establishes, at any
dependency named `key`) the zero-score/unused entries for a name whose
usage sequence is empty. -/
theorem metrics_fold_zero (usage_data : UsageData) (key : String)
    (hud : usage_data.lookup key = some []) :
    ∀ (deps : List CargoDependency) (m : DependencyMetrics),
      ((∃ dep ∈ deps, dep.name = key) ∨
        (m.importance_scores.lookup key = some 0 ∧
          m.is_used.lookup key = some false)) →
      ((deps.foldl (metricsStep usage_data) m).importance_scores.lookup key
          = some 0 ∧
        (deps.foldl (metricsStep usage_data) m).is_used.lookup key
          = some false) := by
  intro deps
  induction deps with
  | nil =>
    intro m h
    rcases h with ⟨dep, hdep, _⟩ | hQ
    · exact absurd hdep (List.not_mem_nil dep)
    · simpa using hQ
  | cons d ds ih =>
    intro m h
    simp only [List.foldl_cons]
    apply ih
    by_cases hd : d.name = key
    · right
      constructor
      · show (insertA d.name _ m.importance_scores).lookup key = some 0
        rw [lookup_insertA, if_pos hd.symm]
        have : (usage_data.lookup d.name).getD [] = [] := by
          rw [hd, hud]; rfl
        simp [calculate_importance_score, this]
      · show (insertA d.name _ m.is_used).lookup key = some false
        rw [lookup_insertA, if_pos hd.symm]
        have : (usage_data.lookup d.name).getD [] = [] := by
          rw [hd, hud]; rfl
        simp [this]
    · rcases h with ⟨dep, hdep, hname⟩ | hQ
      · rcases List.mem_cons.mp hdep with rfl | hds
        · exact absurd hname hd
        · exact Or.inl ⟨dep, hds, hname⟩
      · right
        constructor
        · show (insertA d.name _ m.importance_scores).lookup key = some 0
          rw [lookup_insertA, if_neg (fun hh => hd hh.symm)]
          exact hQ.1
        · show (insertA d.name _ m.is_used).lookup key = some false
          rw [lookup_insertA, if_neg (fun hh => hd hh.symm)]
          exact hQ.2

/-- C7: for every declared dependency whose entry in the usage index is
the empty sequence, `calculate_metrics` records an importance score of
exactly `0.0` and `is_used = false`. -/
theorem calculate_metrics_unused_zero (deps : List CargoDependency)
    (usage_data : UsageData) (dep : CargoDependency)
    (hmem : dep ∈ deps)
    (hempty : usage_data.lookup dep.name = some []) :
    (calculate_metrics deps usage_data).importance_scores.lookup dep.name
        = some 0 ∧
    (calculate_metrics deps usage_data).is_used.lookup dep.name
        = some false := by
  have h := metrics_fold_zero usage_data dep.name hempty deps {}
    (Or.inl ⟨dep, hmem, rfl⟩)
  simpa [calculate_metrics] using h

/-- C7 witness: the concrete dependency `serde` with an empty usage
sequence gets score `0` and `is_used = false`. -/
theorem calculate_metrics_unused_zero_witness :
    depSerde ∈ [depSerde] ∧
    ([("serde", [])] : UsageData).lookup depSerde.name = some [] ∧
    ((calculate_metrics [depSerde] [("serde", [])]).importance_scores.lookup
        depSerde.name = some 0 ∧
      (calculate_metrics [depSerde] [("serde", [])]).is_used.lookup
        depSerde.name = some false) :=
  ⟨List.mem_singleton.mpr rfl, rfl,
    calculate_metrics_unused_zero [depSerde] [("serde", [])] depSerde
      (List.mem_singleton.mpr rfl) rfl⟩

/-! ## C1: the importance-score formula -/

/-- The finite type of usage kinds is the six-kind list. -/
theorem usageType_univ_eq :
    (Finset.univ : Finset UsageType) = allUsageTypes.toFinset := by decide

/-- The map length the code uses equals the spec's count of distinct
usage kinds present. -/
theorem variety_card_eq (counts : UsageType → Nat) :
    (Finset.univ.filter (fun t => 0 < counts t)).card = mapLen counts := by
  classical
  rw [usageType_univ_eq]
  have h1 : allUsageTypes.toFinset.filter (fun t => 0 < counts t)
      = (allUsageTypes.filter (fun t => counts t ≠ 0)).toFinset := by
    ext t
    simp [List.mem_filter, Nat.pos_iff_ne_zero]
  rw [h1, List.card_toFinset,
    List.Nodup.dedup (List.Nodup.filter _ (by decide))]
  rfl

/-- The sequentially accumulated depth of the code equals the spec's
capped sum of per-kind terms. -/
theorem usage_depth_eq_spec (counts : UsageType → Nat) :
    calculate_usage_depth counts = spec_depth counts := by
  simp only [calculate_usage_depth, spec_depth, gt_iff_lt]
  by_cases h1 : 0 < counts .Import <;>
  by_cases h2 : 0 < counts .Function <;>
  by_cases h3 : 0 < counts .Type <;>
  by_cases h4 : 0 < counts .Trait <;>
  by_cases h5 : 0 < counts .Macro <;>
  simp only [h1, h2, h3, h4, h5, if_true, if_false] <;>
  rw [min_comm] <;> ring_nf

/-- C1: for a non-empty usage sequence, `calculate_importance_score`
computes exactly the spec's formula
`min(1.0, base * (1 + variety) * (1 + depth) * class_factor *
optional_factor)`. -/
theorem importance_score_eq_spec (dep : CargoDependency)
    (usages : List DependencyUsage) (usage_count : Nat)
    (usage_types : UsageType → Nat) (h : usages ≠ []) :
    calculate_importance_score dep usages usage_count usage_types =
      spec_importance_score dep usage_count usage_types := by
  have he : usages.isEmpty = false := by
    simpa [List.isEmpty_iff] using h
  simp only [calculate_importance_score, spec_importance_score, he,
    Bool.false_eq_true, if_false, spec_base, spec_variety,
    spec_optional_factor, spec_class_factor]
  rw [variety_card_eq, usage_depth_eq_spec, min_comm]
  cases dep.dependency_type <;> rfl

/-- C1 witness: the formula agreement evaluated at a concrete
single-import usage sequence. -/
theorem importance_score_eq_spec_witness :
    ([⟨"main.rs", 0, "serde", .Import⟩] : List DependencyUsage) ≠ [] ∧
    calculate_importance_score depSerde [⟨"main.rs", 0, "serde", .Import⟩]
        1 (count_usage_types [⟨"main.rs", 0, "serde", .Import⟩]) =
      spec_importance_score depSerde 1
        (count_usage_types [⟨"main.rs", 0, "serde", .Import⟩]) :=
  ⟨by simp, importance_score_eq_spec depSerde _ 1 _ (by simp)⟩

/-! ## C9: monotonicity in the file count -/

/-- The usage depth is non-negative. -/
theorem usage_depth_nonneg (counts : UsageType → Nat) :
    0 ≤ calculate_usage_depth counts := by
  simp only [calculate_usage_depth]
  apply le_min _ (by norm_num)
  split_ifs <;> positivity

/-- C9: holding the usage sites, usage-kind counts, dependency class and
optionality fixed, the importance score is monotonically non-decreasing
in the file count. -/
theorem importance_score_mono (dep : CargoDependency)
    (usages : List DependencyUsage) (usage_types : UsageType → Nat)
    (uc1 uc2 : Nat) (h : uc1 ≤ uc2) :
    calculate_importance_score dep usages uc1 usage_types ≤
      calculate_importance_score dep usages uc2 usage_types := by
  unfold calculate_importance_score
  cases he : usages.isEmpty with
  | true => simp
  | false =>
    simp only [Bool.false_eq_true, if_false]
    have hd : (0:ℚ) ≤ calculate_usage_depth usage_types :=
      usage_depth_nonneg usage_types
    have hbase : min (uc1 : ℚ) 20 / 20 ≤ min (uc2 : ℚ) 20 / 20 := by
      have : min (uc1 : ℚ) 20 ≤ min (uc2 : ℚ) 20 :=
        min_le_min (by exact_mod_cast h) le_rfl
      linarith
    cases hdt : dep.dependency_type <;>
    · refine min_le_min ?_ le_rfl
      apply mul_le_mul_of_nonneg_right
      · apply mul_le_mul_of_nonneg_right
        · apply mul_le_mul_of_nonneg_right
          · exact mul_le_mul_of_nonneg_right hbase (by positivity)
          · linarith
        · norm_num
      · split_ifs <;> norm_num

/-- C9 witness: the monotonicity applied at file counts `1 ≤ 2`. -/
theorem importance_score_mono_witness :
    (1 : Nat) ≤ 2 ∧
    calculate_importance_score depSerde [⟨"main.rs", 0, "serde", .Import⟩]
        1 (count_usage_types [⟨"main.rs", 0, "serde", .Import⟩]) ≤
      calculate_importance_score depSerde [⟨"main.rs", 0, "serde", .Import⟩]
        2 (count_usage_types [⟨"main.rs", 0, "serde", .Import⟩]) :=
  ⟨by norm_num, importance_score_mono depSerde _ _ 1 2 (by norm_num)⟩

/-! ## C2: an unreadable file aborts the scan -/

/-- C2 counterexample: with one unreadable source file among the
enumerated files, `RustAnalyzer::analyze` returns an error — the scan
as a whole fails instead of warning, skipping the file and returning a
usage index. -/
theorem analyze_errors_on_unreadable_file :
    RustAnalyzer.analyze (fun _ => none) [⟨"bad.rs", none⟩] [depA] =
      Except.error ("Failed to read file: " ++ "bad.rs") := rfl

/-- C2 (amended): when every enumerated file is readable, the scan
returns a usage index — a file that merely fails to parse degrades to
the line-oriented fallback (with a logged warning) and never fails the
scan; only a failed read aborts it. -/
theorem analyze_ok_of_all_readable (pf : String → Option (List VisitEvent))
    (files : List SrcFile) (dependencies : List CargoDependency)
    (h : ∀ f ∈ files, f.content ≠ none) :
    ∃ d, RustAnalyzer.analyze pf files dependencies = Except.ok d := by
  unfold RustAnalyzer.analyze
  have main : ∀ (fs : List SrcFile), (∀ f ∈ fs, f.content ≠ none) →
      ∀ (m : UsageData),
      ∃ d, analyze_files_loop pf dependencies fs m = Except.ok d := by
    intro fs
    induction fs with
    | nil => exact fun _ m => ⟨m, rfl⟩
    | cons f fs ih =>
      intro hall m
      have hf : f.content ≠ none := hall f (List.mem_cons_self f fs)
      obtain ⟨c, hc⟩ := Option.ne_none_iff_exists'.mp hf
      have step : ∃ m2, analyze_file pf f dependencies m = Except.ok m2 := by
        cases hpf : pf c with
        | some events =>
          exact ⟨visitFile dependencies f.path events m,
            by simp [analyze_file, hc, hpf]⟩
        | none =>
          exact ⟨analyze_file_simple c f.path dependencies m,
            by simp [analyze_file, hc, hpf]⟩
      obtain ⟨m2, hm2⟩ := step
      have hloop : analyze_files_loop pf dependencies (f :: fs) m =
          analyze_files_loop pf dependencies fs m2 := by
        simp only [analyze_files_loop]
        rw [hm2]
      rw [hloop]
      exact ih (fun g hg => hall g (List.mem_cons_of_mem f hg)) m2
  exact main files h _

/-- C2 witness: a readable file whose parse fails still yields a usage
index. -/
theorem analyze_ok_of_all_readable_witness :
    ∃ d, RustAnalyzer.analyze (fun _ => none)
        [⟨"weird.rs", some "use serde;"⟩] [depSerde] = Except.ok d :=
  analyze_ok_of_all_readable (fun _ => none)
    [⟨"weird.rs", some "use serde;"⟩] [depSerde]
    (by intro f hf; rw [List.mem_singleton] at hf; subst hf; simp)

/-! ## C6: macro attribution goes through the import table -/

/-- `lookup` after updating the entry of key `k` in place. -/
theorem lookup_mapUpdate (m : List (String × List DependencyUsage))
    (k : String) (u : DependencyUsage) (d : String) :
    (m.map (fun p => if p.1 = k then (p.1, p.2 ++ [u]) else p)).lookup d =
      if d = k then (m.lookup d).map (fun l => l ++ [u])
      else m.lookup d := by
  induction m with
  | nil => by_cases h : d = k <;> simp [List.lookup, h]
  | cons p t ih =>
    by_cases hp : p.1 = k
    · simp only [List.map_cons, if_pos hp]
      by_cases hd : d = p.1
      · have : (d == p.1) = true := beq_iff_eq.mpr hd
        simp [List.lookup, this, hd, hp]
      · have : (d == p.1) = false := beq_eq_false_iff_ne.mpr hd
        have hdk : (d = k) = (d = p.1) := by rw [hp]
        simp only [List.lookup, this]
        rw [ih]
    · simp only [List.map_cons, if_neg hp]
      by_cases hd : d = p.1
      · have : (d == p.1) = true := beq_iff_eq.mpr hd
        have hdk : ¬ d = k := fun hh => hp ((hd.symm.trans hh) ▸ rfl)
        simp [List.lookup, this, if_neg hdk]
      · have : (d == p.1) = false := beq_eq_false_iff_ne.mpr hd
        simp only [List.lookup, this]
        rw [ih]

/-- `lookup` after a conditional push: the entry of `k` gains `u` when
the key is present; every other entry is unchanged. -/
theorem lookup_pushUsage (m : UsageData) (k : String)
    (u : DependencyUsage) (d : String) :
    (pushUsage m k u).lookup d =
      if d = k then (m.lookup d).map (fun l => l ++ [u])
      else m.lookup d := by
  unfold pushUsage
  by_cases hk : (List.lookup k m).isSome
  · rw [if_pos hk]
    exact lookup_mapUpdate m k u d
  · rw [if_neg hk]
    by_cases hd : d = k
    · have : m.lookup d = none := by
        rw [hd]
        exact Option.not_isSome_iff_eq_none.mp hk
      rw [if_pos hd, this]
      rfl
    · rw [if_neg hd]

/-- The dependency loop of `visit_macro`: its effect on a lookup, as a
replicated push at the matched crate name. -/
theorem visit_macro_deps_fold_lookup (deps : List CargoDependency)
    (m : UsageData) (cn : String) (u : DependencyUsage) (d : String) :
    ((deps.foldl (fun m dep =>
        if cn = dep.name then pushUsage m dep.name u else m) m).lookup d) =
      if d = cn then
        (m.lookup d).map (fun l =>
          l ++ List.replicate
            ((deps.filter (fun dep => cn = dep.name)).length) u)
      else m.lookup d := by
  induction deps generalizing m with
  | nil =>
    by_cases hd : d = cn <;> simp [hd]
  | cons dep rest ih =>
    simp only [List.foldl_cons]
    by_cases hcn : cn = dep.name
    · rw [if_pos hcn, ih]
      by_cases hd : d = cn
      · have hddep : d = dep.name := hd.trans hcn
        have hlen : ((dep :: rest).filter
            (fun dep => cn = dep.name)).length =
            ((rest.filter (fun dep => cn = dep.name)).length) + 1 := by
          simp [List.filter_cons, hcn]
        rw [if_pos hd, if_pos hd, lookup_pushUsage, if_pos hddep, hlen]
        cases m.lookup d with
        | none => rfl
        | some l => simp [List.append_assoc, List.replicate_succ]
      · rw [if_neg hd, if_neg hd, lookup_pushUsage,
          if_neg (fun hh => hd (hh.trans hcn.symm))]
    · rw [if_neg hcn, ih]
      have hlen : ((dep :: rest).filter
          (fun dep => cn = dep.name)).length =
          (rest.filter (fun dep => cn = dep.name)).length := by
        simp [List.filter_cons, hcn]
      by_cases hd : d = cn
      · rw [if_pos hd, if_pos hd, hlen]
      · rw [if_neg hd, if_neg hd]

/-- The import-table loop of `visit_macro`: its total effect on a
lookup. Each import entry whose local name equals the macro name and
whose full path leads with `d` contributes one push per dependency
named `d`. -/
theorem visit_macro_imports_fold_lookup (imports : List (String × String))
    (deps : List CargoDependency) (mn : String) (u : DependencyUsage)
    (d : String) (m : UsageData) :
    ((imports.foldl (fun m p =>
        if mn = p.1 then
          deps.foldl (fun m dep =>
            if headSeg p.2 = dep.name then pushUsage m dep.name u else m) m
        else m) m).lookup d) =
      (m.lookup d).map (fun l =>
        l ++ List.replicate
          ((imports.filter
              (fun p => mn = p.1 && headSeg p.2 = d)).length *
            (deps.filter (fun dep => d = dep.name)).length) u) := by
  induction imports generalizing m with
  | nil =>
    cases hm : m.lookup d <;> simp [hm]
  | cons p rest ih =>
    simp only [List.foldl_cons]
    by_cases hmn : mn = p.1
    · rw [if_pos hmn, ih, visit_macro_deps_fold_lookup]
      by_cases hd : d = headSeg p.2
      · have hfil : (p :: rest).filter
            (fun p => mn = p.1 && headSeg p.2 = d) =
            p :: rest.filter (fun p => mn = p.1 && headSeg p.2 = d) := by
          simp [List.filter_cons, hmn, hd.symm]
        have hdepfil : deps.filter (fun dep => headSeg p.2 = dep.name) =
            deps.filter (fun dep => d = dep.name) := by
          rw [hd]
        rw [if_pos hd, hfil, hdepfil]
        cases m.lookup d with
        | none => rfl
        | some l =>
          simp only [Option.map_map, Option.map_some', List.length_cons,
            Function.comp]
          congr 1
          rw [List.append_assoc, ← List.replicate_add]
          congr 2
          ring
      · have hne : ¬headSeg p.2 = d := fun hh => hd hh.symm
        have hfil : (p :: rest).filter
            (fun p => mn = p.1 && headSeg p.2 = d) =
            rest.filter (fun p => mn = p.1 && headSeg p.2 = d) := by
          simp [List.filter_cons, hne]
        rw [if_neg hd, hfil]
    · rw [if_neg hmn, ih]
      have hfil : (p :: rest).filter
          (fun p => mn = p.1 && headSeg p.2 = d) =
          rest.filter (fun p => mn = p.1 && headSeg p.2 = d) := by
        simp [List.filter_cons, hmn]
      rw [hfil]

/-- The effect of `visit_macro` on any dependency's usage sequence. -/
theorem visitMacro_lookup (deps : List CargoDependency) (file : String)
    (segIdents : List String) (st : VisitorState) (d : String) :
    ((visitMacro deps file segIdents st).usage_data.lookup d) =
      match segIdents.head? with
      | none => st.usage_data.lookup d
      | some mn =>
        (st.usage_data.lookup d).map (fun l =>
          l ++ List.replicate
            ((st.current_imports.filter
                (fun p => mn = p.1 && headSeg p.2 = d)).length *
              (deps.filter (fun dep => d = dep.name)).length)
            ⟨file, 0, mn ++ "!", .Macro⟩) := by
  unfold visitMacro
  cases segIdents.head? with
  | none => rfl
  | some mn => exact visit_macro_imports_fold_lookup _ _ _ _ _ _

/-- C6 counterexample: the macro path `serde`, whose leading segment
exactly equals the declared dependency name `serde`, is NOT attributed
to `serde` when the file has no matching import: `visit_macro` records
nothing, because attribution runs through `current_imports`, not through
direct (exact or substring) matching against declared names. -/
theorem visit_macro_exact_match_not_attributed :
    (visitMacro [depSerde] "main.rs" ["serde"]
        ⟨[], [("serde", [])]⟩).usage_data.lookup "serde" = some [] ∧
    "serde" = depSerde.name := ⟨rfl, rfl⟩

/-- C6 (amended): `visit_macro` attributes a macro invocation to
dependency `d` iff the macro's leading segment exactly equals a locally
imported name whose recorded full path's leading segment exactly equals
`d`'s declared name; no substring matching is involved, and every
matching (import entry, dependency) pair records one usage. -/
theorem visit_macro_attribution (deps : List CargoDependency)
    (file : String) (segIdents : List String) (st : VisitorState)
    (d : String) (l : List DependencyUsage)
    (hkey : st.usage_data.lookup d = some l) :
    ((visitMacro deps file segIdents st).usage_data.lookup d ≠
        st.usage_data.lookup d) ↔
      ∃ mn, segIdents.head? = some mn ∧
        (∃ p ∈ st.current_imports, p.1 = mn ∧ headSeg p.2 = d) ∧
        (∃ dep ∈ deps, dep.name = d) := by
  rw [visitMacro_lookup]
  cases hh : segIdents.head? with
  | none => simp
  | some mn =>
    rw [hkey]
    simp only [Option.map_some', ne_eq, Option.some_inj]
    have hlen : ∀ N : Nat, (l ++ List.replicate N
        (⟨file, 0, mn ++ "!", .Macro⟩ : DependencyUsage) = l) ↔ N = 0 := by
      intro N
      constructor
      · intro hEq
        have hlen2 := congrArg List.length hEq
        simp only [List.length_append, List.length_replicate] at hlen2
        omega
      · intro hN; rw [hN]; simp
    rw [hlen, Nat.mul_eq_zero, not_or]
    constructor
    · rintro ⟨ha, hb⟩
      refine ⟨mn, rfl, ?_, ?_⟩
      · have hne : st.current_imports.filter
            (fun p => mn = p.1 && headSeg p.2 = d) ≠ [] := by
          intro hnil
          exact ha (by rw [hnil]; rfl)
        obtain ⟨p, hpf⟩ := List.exists_mem_of_ne_nil _ hne
        have hp := List.mem_filter.mp hpf
        have hp2 := hp.2
        simp only [Bool.and_eq_true, decide_eq_true_eq] at hp2
        exact ⟨p, hp.1, hp2.1.symm, hp2.2⟩
      · have hne : deps.filter (fun dep => d = dep.name) ≠ [] := by
          intro hnil
          exact hb (by rw [hnil]; rfl)
        obtain ⟨dep, hdf⟩ := List.exists_mem_of_ne_nil _ hne
        have hdep := List.mem_filter.mp hdf
        have hd2 := hdep.2
        simp only [decide_eq_true_eq] at hd2
        exact ⟨dep, hdep.1, hd2.symm⟩
    · rintro ⟨mn', hmn', ⟨p, hpmem, hp1, hp2⟩, ⟨dep, hdepmem, hdep⟩⟩
      subst hmn'
      constructor
      · have hmemf : p ∈ st.current_imports.filter
            (fun p => mn = p.1 && headSeg p.2 = d) :=
          List.mem_filter.mpr ⟨hpmem, by simp [hp1, hp2]⟩
        intro h0
        exact List.ne_nil_of_mem hmemf (List.length_eq_zero.mp h0)
      · have hmemf : dep ∈ deps.filter (fun dep => d = dep.name) :=
          List.mem_filter.mpr ⟨hdepmem, by simp [hdep]⟩
        intro h0
        exact List.ne_nil_of_mem hmemf (List.length_eq_zero.mp h0)

/-- C6 witness: a macro invoked through a matching local import is
attributed to its dependency. -/
theorem visit_macro_attribution_witness :
    (visitMacro [depSerdeJson] "main.rs" ["json"]
        ⟨[("json", "serde_json::json")],
          [("serde_json", [])]⟩).usage_data.lookup "serde_json" ≠
      (⟨[("json", "serde_json::json")],
          [("serde_json", [])]⟩ : VisitorState).usage_data.lookup
        "serde_json" :=
  (visit_macro_attribution [depSerdeJson] "main.rs" ["json"]
      ⟨[("json", "serde_json::json")], [("serde_json", [])]⟩
      "serde_json" [] rfl).mpr
    ⟨"json", rfl,
      ⟨("json", "serde_json::json"), List.mem_singleton.mpr rfl, rfl, rfl⟩,
      ⟨depSerdeJson, List.mem_singleton.mpr rfl, rfl⟩⟩

/-! ## C10: line numbers — `0` from the visitor, 1-based from the
fallback -/

/-- Every usage site in the map satisfies `P` on its line number. -/
def allLines (m : UsageData) (P : Nat → Prop) : Prop :=
  ∀ e ∈ m, ∀ u ∈ e.2, P u.line

/-- A push preserves an all-lines invariant when the pushed site
satisfies it. -/
theorem allLines_pushUsage {m : UsageData} {P : Nat → Prop} {k : String}
    {u : DependencyUsage} (h : allLines m P) (hu : P u.line) :
    allLines (pushUsage m k u) P := by
  unfold pushUsage allLines at *
  split
  · intro e he v hv
    obtain ⟨p, hp, rfl⟩ := List.mem_map.mp he
    by_cases hpk : p.1 = k
    · rw [if_pos hpk] at hv
      rcases List.mem_append.mp hv with hv1 | hv2
      · exact h p hp v hv1
      · rw [List.mem_singleton.mp hv2]
        exact hu
    · rw [if_neg hpk] at hv
      exact h p hp v hv
  · exact h

/-- A fold whose every step preserves an all-lines invariant preserves
it. -/
theorem allLines_foldl {α : Type} (L : List α)
    (F : UsageData → α → UsageData) (P : Nat → Prop)
    (hF : ∀ (m2 : UsageData) (x : α), allLines m2 P →
      allLines (F m2 x) P) :
    ∀ (m : UsageData), allLines m P → allLines (L.foldl F m) P := by
  induction L with
  | nil => exact fun m h => h
  | cons x xs ih => exact fun m h => ih (F m x) (hF m x h)

mutual
/-- Every usage site recorded by `process_use_tree` carries the line
number it was handed. -/
theorem process_use_tree_allLines (deps : List CargoDependency)
    (file : String) (P : Nat → Prop) :
    ∀ (t : UseTree) (pre : String) (line : Nat) (st : VisitorState),
      allLines st.usage_data P → P line →
      allLines (process_use_tree deps file t pre line st).usage_data P
  | .path ident sub, pre, line, st => fun h hl => by
    rw [process_use_tree]
    exact process_use_tree_allLines deps file P sub _ line _
      (allLines_foldl deps _ P
        (fun m2 dep hm2 => by
          split
          · exact allLines_pushUsage hm2 hl
          · exact hm2) _ h) hl
  | .name ident, pre, line, st => fun h hl => by
    rw [process_use_tree]
    exact allLines_foldl deps _ P
      (fun m2 dep hm2 => by
        split
        · exact allLines_pushUsage hm2 hl
        · exact hm2) _ h
  | .rename ident rn, pre, line, st => fun h hl => by
    rw [process_use_tree]
    exact allLines_foldl deps _ P
      (fun m2 dep hm2 => by
        split
        · exact allLines_pushUsage hm2 hl
        · exact hm2) _ h
  | .glob, pre, line, st => fun h hl => by
    rw [process_use_tree]
    exact allLines_foldl deps _ P
      (fun m2 dep hm2 => by
        split
        · exact allLines_pushUsage hm2 hl
        · exact hm2) _ h
  | .group items, pre, line, st => fun h hl => by
    rw [process_use_tree]
    exact process_use_tree_items_allLines deps file P items pre line st h
      hl

/-- Every usage site recorded while processing a group's items carries
the line number handed down. -/
theorem process_use_tree_items_allLines (deps : List CargoDependency)
    (file : String) (P : Nat → Prop) :
    ∀ (ts : UseTreeForest) (pre : String) (line : Nat)
      (st : VisitorState),
      allLines st.usage_data P → P line →
      allLines
        (process_use_tree_items deps file ts pre line st).usage_data P
  | .nil, pre, line, st => fun h _ => by
    rw [process_use_tree_items]
    exact h
  | .cons t ts, pre, line, st => fun h hl => by
    rw [process_use_tree_items]
    exact process_use_tree_items_allLines deps file P ts pre line _
      (process_use_tree_allLines deps file P t pre line st h hl) hl
end

/-- `visit_macro` preserves an all-lines invariant that holds at `0`:
every site it records carries line `0`. -/
theorem visitMacro_allLines (deps : List CargoDependency) (file : String)
    (segIdents : List String) (st : VisitorState) (P : Nat → Prop)
    (h : allLines st.usage_data P) (h0 : P 0) :
    allLines (visitMacro deps file segIdents st).usage_data P := by
  unfold visitMacro
  cases segIdents.head? with
  | none => exact h
  | some mn =>
    exact allLines_foldl st.current_imports _ P
      (fun m2 p hm2 => by
        split
        · exact allLines_foldl deps _ P
            (fun m3 dep hm3 => by
              split
              · exact allLines_pushUsage hm3 h0
              · exact hm3) m2 hm2
        · exact hm2) st.usage_data h

/-- `visit_path` preserves an all-lines invariant that holds at `0`:
every site it records carries line `0`. -/
theorem visit_path_allLines (deps : List CargoDependency) (file : String)
    (segments : List PathSeg) (st : VisitorState) (P : Nat → Prop)
    (h : allLines st.usage_data P) (h0 : P 0) :
    allLines (visit_path deps file segments st).usage_data P := by
  unfold visit_path
  cases segments.head? with
  | none => exact h
  | some seg =>
    dsimp only
    have h1 : allLines (deps.foldl (fun m dep =>
        if seg.ident = dep.name then
          pushUsage m dep.name
            ⟨file, 0, path_to_string segments,
              determine_usage_type segments⟩
        else m) st.usage_data) P :=
      allLines_foldl deps _ P
        (fun m2 dep hm2 => by
          split
          · exact allLines_pushUsage hm2 h0
          · exact hm2) st.usage_data h
    cases List.lookup seg.ident st.current_imports with
    | none => exact h1
    | some full_path =>
      dsimp only
      exact allLines_foldl deps _ P
        (fun m2 dep hm2 => by
          split
          · exact allLines_pushUsage hm2 h0
          · exact hm2) _ h1

/-- The event fold of `visitFile` preserves an all-lines invariant that
holds at `0`. -/
theorem visitFile_fold_allLines (deps : List CargoDependency)
    (file : String) (P : Nat → Prop) (h0 : P 0) :
    ∀ (events : List VisitEvent) (st : VisitorState),
      allLines st.usage_data P →
      allLines ((events.foldl (fun (st : VisitorState) e =>
        match e with
        | .itemUse tree => visit_item_use deps file tree st
        | .macroCall segIdents => visitMacro deps file segIdents st
        | .pathExpr segments => visit_path deps file segments st)
          st).usage_data) P := by
  intro events
  induction events with
  | nil => exact fun st h => h
  | cons e es ih =>
    intro st h
    apply ih
    cases e with
    | itemUse tree =>
      exact process_use_tree_allLines deps file P tree "" 0 st h h0
    | macroCall segIdents =>
      exact visitMacro_allLines deps file segIdents st P h h0
    | pathExpr segments =>
      exact visit_path_allLines deps file segments st P h h0

/-- `process_use_statement` records sites only at the line number it is
handed. -/
theorem process_use_statement_allLines (line : String)
    (line_number : Nat) (file : String) (deps : List CargoDependency)
    (m : UsageData) (P : Nat → Prop) (h : allLines m P)
    (hln : P line_number) :
    allLines (process_use_statement line line_number file deps m) P := by
  unfold process_use_statement
  exact allLines_foldl deps _ P
    (fun m2 dep hm2 => by
      split
      · exact allLines_pushUsage hm2 hln
      · exact hm2) m h

/-- `process_extern_crate` records sites only at the line number it is
handed. -/
theorem process_extern_crate_allLines (line : String)
    (line_number : Nat) (file : String) (deps : List CargoDependency)
    (m : UsageData) (P : Nat → Prop) (h : allLines m P)
    (hln : P line_number) :
    allLines (process_extern_crate line line_number file deps m) P := by
  unfold process_extern_crate
  exact allLines_foldl deps _ P
    (fun m2 dep hm2 => by
      split
      · exact allLines_pushUsage hm2 hln
      · exact hm2) m h

/-- The fallback pass records sites only at `line_number + 1`. -/
theorem analyze_file_simple_allLines (file_content file : String)
    (deps : List CargoDependency) (P : Nat → Prop)
    (hP : ∀ n, P (n + 1)) (m : UsageData) (h : allLines m P) :
    allLines (analyze_file_simple file_content file deps m) P := by
  unfold analyze_file_simple
  refine allLines_foldl _ _ P (fun m2 p hm2 => ?_) m h
  dsimp only
  have h1 : allLines (if p.2.trim.startsWith "use " = true then
      process_use_statement p.2 (p.1 + 1) file deps m2 else m2) P := by
    split
    · exact process_use_statement_allLines _ _ _ _ _ P hm2 (hP p.1)
    · exact hm2
  split
  · exact process_extern_crate_allLines _ _ _ _ _ P h1 (hP p.1)
  · exact h1

/-- C10: every usage site recorded by the syntax-tree visitor path
(imports, macros and paths alike) carries line number `0`, while the
line-oriented fallback pass only records 1-based line numbers
(`line_number + 1 ≥ 1`). -/
theorem visitor_lines_zero_fallback_one_based
    (deps : List CargoDependency) (file : String) :
    (∀ (events : List VisitEvent) (m : UsageData),
        allLines m (fun l => l = 0) →
        allLines (visitFile deps file events m) (fun l => l = 0)) ∧
    (∀ (file_content : String) (m : UsageData),
        allLines m (fun l => 1 ≤ l) →
        allLines (analyze_file_simple file_content file deps m)
          (fun l => 1 ≤ l)) := by
  constructor
  · intro events m hm
    unfold visitFile
    exact visitFile_fold_allLines deps file (fun l => l = 0) rfl events
      ⟨[], m⟩ hm
  · intro file_content m hm
    exact analyze_file_simple_allLines file_content file deps _
      (fun n => Nat.succ_le_succ (Nat.zero_le n)) m hm

/-- C10 witness: concrete runs of the visitor and of the fallback on a
freshly initialized usage map. -/
theorem visitor_lines_witness :
    allLines (visitFile [depSerde] "main.rs"
        [.pathExpr [⟨"serde", true⟩]] [("serde", [])])
      (fun l => l = 0) ∧
    allLines (analyze_file_simple "use serde;" "main.rs" [depSerde]
        [("serde", [])]) (fun l => 1 ≤ l) := by
  have hempty : ∀ (P : Nat → Prop),
      allLines ([("serde", [])] : UsageData) P := by
    intro P e he u hu
    rw [List.mem_singleton] at he
    subst he
    exact absurd hu (List.not_mem_nil u)
  exact ⟨(visitor_lines_zero_fallback_one_based [depSerde] "main.rs").1
      [.pathExpr [⟨"serde", true⟩]] [("serde", [])] (hempty _),
    (visitor_lines_zero_fallback_one_based [depSerde] "main.rs").2
      "use serde;" [("serde", [])] (hempty _)⟩

/-! ## C8: cycle detection returns exactly the SCCs of size > 1 -/

/-- A set is contained in its one-step expansion. -/
theorem subset_succs (g : DependencyGraph) (S : Finset Nat) :
    S ⊆ succs g S := Finset.subset_union_left

/-- Expansion rounds grow monotonically. -/
theorem reachSet_subset_succ (g : DependencyGraph) (s : Nat) (k : Nat) :
    reachSet g s k ⊆ reachSet g s (k + 1) := by
  show reachSet g s k ⊆ succs g (reachSet g s k)
  exact subset_succs g _

/-- Monotonicity of the expansion rounds. -/
theorem reachSet_mono (g : DependencyGraph) (s : Nat) {k m : Nat}
    (h : k ≤ m) : reachSet g s k ⊆ reachSet g s m := by
  induction m with
  | zero => rw [Nat.le_zero.mp h]
  | succ m ih =>
    by_cases hm : k ≤ m
    · exact subset_trans (ih hm) (reachSet_subset_succ g s m)
    · have : k = m + 1 := by omega
      rw [this]

/-- Soundness: members of an expansion round are reachable. -/
theorem reachSet_sound (g : DependencyGraph) (s : Nat) :
    ∀ (k v : Nat), v ∈ reachSet g s k → Reach g s v
  | 0, v, hv => by
    have : v = s := Finset.mem_singleton.mp hv
    rw [this]
    exact Relation.ReflTransGen.refl
  | k + 1, v, hv => by
    rcases Finset.mem_union.mp hv with h1 | h2
    · exact reachSet_sound g s k v h1
    · obtain ⟨_, u, hu, hedge⟩ := Finset.mem_filter.mp h2
      exact Relation.ReflTransGen.tail (reachSet_sound g s k u hu) hedge

/-- Once one round adds nothing, all later rounds agree. -/
theorem reachSet_stable (g : DependencyGraph) (s : Nat) (k : Nat)
    (hst : reachSet g s (k + 1) = reachSet g s k) :
    ∀ m, k ≤ m → reachSet g s m = reachSet g s k := by
  intro m hm
  induction m, hm using Nat.le_induction with
  | base => rfl
  | succ n hn ih =>
    calc reachSet g s (n + 1) = succs g (reachSet g s n) := rfl
      _ = succs g (reachSet g s k) := by rw [ih]
      _ = reachSet g s (k + 1) := rfl
      _ = reachSet g s k := hst

/-- Every round stays inside the start node plus the node range. -/
theorem reachSet_subset_bound (g : DependencyGraph) (s : Nat) :
    ∀ k, reachSet g s k ⊆ insert s (Finset.range g.n)
  | 0 => by
    intro x hx
    rw [Finset.mem_singleton.mp hx]
    exact Finset.mem_insert_self s _
  | k + 1 => by
    apply Finset.union_subset (reachSet_subset_bound g s k)
    exact subset_trans (Finset.filter_subset _ _)
      (Finset.subset_insert _ _)

/-- While rounds keep strictly growing, the cardinality exceeds the
round index. -/
theorem reachSet_card_growth (g : DependencyGraph) (s : Nat) :
    ∀ K, (∀ j, j < K → reachSet g s j ≠ reachSet g s (j + 1)) →
      K + 1 ≤ (reachSet g s K).card
  | 0, _ => by simp [reachSet]
  | K + 1, hne => by
    have h1 := reachSet_card_growth g s K
      (fun j hj => hne j (Nat.lt_succ_of_lt hj))
    have hss : reachSet g s K ⊂ reachSet g s (K + 1) :=
      HasSubset.Subset.ssubset_of_ne (reachSet_subset_succ g s K)
        (hne K (Nat.lt_succ_self K))
    have h2 := Finset.card_lt_card hss
    omega

/-- Some round at or before `g.n` adds nothing. -/
theorem reachSet_stabilizes (g : DependencyGraph) (s : Nat) :
    ∃ j, j ≤ g.n ∧ reachSet g s (j + 1) = reachSet g s j := by
  by_contra hc
  push_neg at hc
  have hgrow := reachSet_card_growth g s (g.n + 1)
    (fun j hj he => hc j (Nat.lt_succ_iff.mp hj) he.symm)
  have hbound := Finset.card_le_card (reachSet_subset_bound g s (g.n + 1))
  have hins : (insert s (Finset.range g.n)).card ≤ g.n + 1 := by
    apply le_trans (Finset.card_insert_le _ _)
    simp
  omega

/-- Completeness: a reachable node is found within `g.n` rounds,
provided every edge target is in range. -/
theorem reach_mem_reachSet (g : DependencyGraph) (s v : Nat)
    (hwf : ∀ e ∈ g.edges, e.2 < g.n) (h : Reach g s v) :
    v ∈ reachSet g s g.n := by
  have hex : ∃ k, v ∈ reachSet g s k := by
    induction h with
    | refl => exact ⟨0, Finset.mem_singleton_self s⟩
    | tail hab hbc ih =>
      obtain ⟨k, hk⟩ := ih
      refine ⟨k + 1, Finset.mem_union_right _ (Finset.mem_filter.mpr
        ⟨Finset.mem_range.mpr (hwf _ hbc), ⟨_, hk, hbc⟩⟩)⟩
  obtain ⟨k, hk⟩ := hex
  by_cases hkn : k ≤ g.n
  · exact reachSet_mono g s hkn hk
  · obtain ⟨j, hj, hstab⟩ := reachSet_stabilizes g s
    have heq : reachSet g s k = reachSet g s j :=
      reachSet_stable g s j hstab k
        (le_trans hj (le_of_lt (Nat.lt_of_not_le hkn)))
    rw [heq] at hk
    exact reachSet_mono g s hj hk

/-- The executable reachability test decides `Reach` on graphs whose
edge targets are in range. -/
theorem reachableB_iff (g : DependencyGraph)
    (hwf : ∀ e ∈ g.edges, e.2 < g.n) (u v : Nat) :
    reachableB g u v = true ↔ Reach g u v := by
  unfold reachableB
  rw [decide_eq_true_eq]
  exact ⟨reachSet_sound g u g.n v, reach_mem_reachSet g u v hwf⟩

/-- Membership in a strongly connected component list. -/
theorem mem_sccOf_iff (g : DependencyGraph)
    (hwf : ∀ e ∈ g.edges, e.2 < g.n) (v u : Nat) :
    u ∈ sccOf g v ↔ (u < g.n ∧ Reach g v u ∧ Reach g u v) := by
  unfold sccOf
  rw [List.mem_filter, List.mem_range]
  simp only [Bool.and_eq_true]
  rw [reachableB_iff g hwf, reachableB_iff g hwf]

/-- Each component list has no duplicate nodes. -/
theorem sccOf_nodup (g : DependencyGraph) (v : Nat) :
    (sccOf g v).Nodup :=
  List.Nodup.filter _ (List.nodup_range g.n)

/-- C8: on a graph whose edges join in-range nodes, the component
groups returned by `find_circular_dependencies` (before the index-to-
name conversion, `findCircularIndices`) are, as node sets, exactly the
strongly connected components holding more than one node — every such
component appears and nothing else does; on a graph with no edges,
nothing is returned; and `find_circular_dependencies` itself is the
name image of those groups. -/
theorem find_circular_dependencies_sccs (g : DependencyGraph)
    (hwf : ∀ e ∈ g.edges, e.1 < g.n ∧ e.2 < g.n) :
    (∀ S : Finset Nat,
      (∃ c ∈ findCircularIndices g, c.toFinset = S) ↔
        (1 < S.card ∧ ∃ v, v < g.n ∧
          ∀ u, u ∈ S ↔ (u < g.n ∧ Reach g v u ∧ Reach g u v))) ∧
    (g.edges = [] → findCircularIndices g = []) ∧
    find_circular_dependencies g =
      (findCircularIndices g).map (fun scc =>
        scc.map (fun idx => (g.nodes.get? idx).getD "")) := by
  have hwf2 : ∀ e ∈ g.edges, e.2 < g.n := fun e he => (hwf e he).2
  refine ⟨fun S => ?_, ?_, rfl⟩
  · constructor
    · rintro ⟨c, hc, rfl⟩
      obtain ⟨hdec, hlen⟩ := List.mem_filter.mp hc
      rw [sccDecomp, List.mem_dedup] at hdec
      obtain ⟨v, hv, rfl⟩ := List.mem_map.mp hdec
      refine ⟨?_, v, List.mem_range.mp hv, fun u => ?_⟩
      · rw [List.toFinset_card_of_nodup (sccOf_nodup g v)]
        simpa using hlen
      · rw [List.mem_toFinset]
        exact mem_sccOf_iff g hwf2 v u
    · rintro ⟨hcard, v, hvn, hS⟩
      have hteq : (sccOf g v).toFinset = S := by
        ext u
        rw [List.mem_toFinset, mem_sccOf_iff g hwf2 v u, hS u]
      refine ⟨sccOf g v, List.mem_filter.mpr ⟨?_, ?_⟩, hteq⟩
      · rw [sccDecomp, List.mem_dedup]
        exact List.mem_map.mpr ⟨v, List.mem_range.mpr hvn, rfl⟩
      · have hlen : (sccOf g v).length = S.card := by
          rw [← hteq, List.toFinset_card_of_nodup (sccOf_nodup g v)]
        simpa [hlen] using hcard
  · intro hE
    have hreach : ∀ a b, reachableB g a b = true ↔ a = b := by
      intro a b
      unfold reachableB
      rw [decide_eq_true_eq]
      have hsetk : ∀ k, reachSet g a k = {a} := by
        intro k
        induction k with
        | zero => rfl
        | succ k ih =>
          show succs g (reachSet g a k) = {a}
          rw [ih]
          unfold succs
          have hfe : (Finset.range g.n).filter
              (fun w => ∃ u ∈ ({a} : Finset Nat), Step g u w) = ∅ := by
            apply Finset.filter_eq_empty_iff.mpr
            rintro w _ ⟨u, _, hstep⟩
            rw [Step, hE] at hstep
            exact List.not_mem_nil _ hstep
          rw [hfe, Finset.union_empty]
      rw [hsetk]
      rw [Finset.mem_singleton]
      exact eq_comm
    have hall : ∀ v u, u ∈ sccOf g v → u = v := by
      intro v u hu
      have h2 := (List.mem_filter.mp hu).2
      simp only [Bool.and_eq_true] at h2
      exact ((hreach v u).mp h2.1).symm
    have hscc1 : ∀ v, ¬((sccOf g v).length > 1) := by
      intro v
      cases hl : sccOf g v with
      | nil => simp
      | cons x t =>
        cases ht : t with
        | nil => simp
        | cons y t2 =>
          intro _
          have hx : x = v := hall v x (by
            rw [hl]; exact List.mem_cons_self x t)
          have hy : y = v := hall v y (by
            rw [hl, ht]
            exact List.mem_cons_of_mem x (List.mem_cons_self y t2))
          have hnd := sccOf_nodup g v
          rw [hl, ht] at hnd
          exact (List.nodup_cons.mp hnd).1
            (by rw [hx, hy]; exact List.mem_cons_self v t2)
    apply List.filter_eq_nil_iff.mpr
    intro c hc
    rw [sccDecomp, List.mem_dedup] at hc
    obtain ⟨v, _, rfl⟩ := List.mem_map.mp hc
    simpa using hscc1 v

/-- The three-node cycle `a → b → c → a` of the spec's Scenario D. -/
def gTriangle : DependencyGraph :=
  ⟨["a", "b", "c"], [(0, 1), (1, 2), (2, 0)]⟩

/-- C8 witness: on the triangle graph, the returned group `[0, 1, 2]`
is the strongly connected component of node `0`. -/
theorem find_circular_dependencies_sccs_witness :
    ∃ v, v < gTriangle.n ∧ ∀ u, u ∈ ({0, 1, 2} : Finset Nat) ↔
      (u < gTriangle.n ∧ Reach gTriangle v u ∧ Reach gTriangle u v) := by
  have h := (find_circular_dependencies_sccs gTriangle (by decide)).1
    {0, 1, 2}
  have hmem : ∃ c ∈ findCircularIndices gTriangle,
      c.toFinset = ({0, 1, 2} : Finset Nat) :=
    ⟨[0, 1, 2], by decide, by decide⟩
  exact (h.mp hmem).2
